import Mathlib

/-!
A shallow embedding of the prize-distribution engine of
`src/redditgiveaway.py` (the module-level poll loop, its eligibility
checks, the key-file loading, ordering strategy and finalizer), together
with theorems settling the specification claims about it.

Modelling conventions:
* text is `String` (bodies, keywords, author names, key lines);
* times are `Int` seconds since the epoch (`datetime` values in the
  source); `datetime.now()` is a parameter `now`, account creation is the
  comment's `created_utc` field;
* Python sets (`authors`, `checked_comment_ids`) are lists used only
  through membership, insertion at the head;
* `keys.pop(0)` is taking the head of the `keys` list;
* delivery of a prize (the `comment.reply` / `redditor(...).message`
  calls made after the prize message has been composed, i.e. after the
  key was already popped) is an oracle `dv : Comment → Bool`; a failing
  delivery models the `AttributeError` path of lines 180-182, which calls
  `sys.exit(1)` and aborts the whole run;
* `random.shuffle` is an oracle permutation `shuffle` supplied per poll
  cycle; `list.sort(key=...)` (a stable ascending sort) is
  `List.insertionSort`, which is proved below to be an ascending,
  stable permutation — the three properties that determine Python's
  stable sort extensionally;
* the module-level variable `s` (the submission), assigned only inside
  the loop body, is tracked by the flag `subFetched`; the finalizer's
  unguarded use of `s` after a run whose loop body never executed is the
  `crashNameError` outcome (Python `NameError`).
-/

namespace RedditGiveaway

/-- Python whitespace characters relevant to `str.strip()`. -/
def isPySpace (c : Char) : Bool :=
  c = ' ' || c = '\t' || c = '\n' || c = '\r' || c = '\x0b' || c = '\x0c'

/-- Python `str.strip()`: remove leading and trailing whitespace. -/
def pyStripChars (s : List Char) : List Char :=
  ((s.dropWhile isPySpace).reverse.dropWhile isPySpace).reverse

/-- Python `str.strip()` on a `String`. -/
def pyStrip (s : String) : String :=
  ⟨pyStripChars s.data⟩

/-- Helper for `readlines`: split the character stream after each newline,
keeping the newline attached to its line, as Python `file.readlines()` does. -/
def readlinesAux : List Char → List Char → List String
  | acc, [] => if acc.isEmpty then [] else [⟨acc.reverse⟩]
  | acc, c :: rest =>
    if c = '\n' then ⟨(c :: acc).reverse⟩ :: readlinesAux [] rest
    else readlinesAux (c :: acc) rest

/-- Python `f.readlines()` on the key file's content (line 103 of the
source): the lines in file order, each keeping its trailing newline, with
no stripping and no filtering of blank lines. -/
def readlines (content : String) : List String :=
  readlinesAux [] content.data

/-- Does `body` start with `kw`? (helper for substring containment). -/
def startsWithChars : List Char → List Char → Bool
  | _, [] => true
  | [], _ :: _ => false
  | b :: bs, k :: ks => b = k && startsWithChars bs ks

/-- Python's `kw in body` for strings: contiguous, case-sensitive
substring containment. -/
def hasSubstr : List Char → List Char → Bool
  | [], kw => kw.isEmpty
  | b :: bs, kw => startsWithChars (b :: bs) kw || hasSubstr bs kw

/-- A Reddit comment as the poll loop reads it: its id, its author
(`none` models a deleted account, Python `comment.author is None`), the
author's account-creation time (`author.created_utc`) and its body. -/
structure Comment where
  id : Nat
  author : Option String
  created_utc : Int
  body : String
  deriving DecidableEq, Repr

/-- The run parameters the engine consumes (a fragment of `args`). -/
structure Config where
  username : String
  ageDays : Nat
  keyword : Option String
  randomMode : Bool
  deriving DecidableEq, Repr

/-- The mutable module-level state of the poll loop: the remaining key
lines (`keys`), the excluded-author set (`authors`), the seen-comment set
(`checked_comment_ids`), plus a log of committed awards
(author, stripped prize) and whether the submission variable `s` has been
assigned (it is assigned in the loop body, line 143). -/
structure BotState where
  keys : List String
  authors : List String
  checked_comment_ids : List Nat
  awardedLog : List (String × String)
  subFetched : Bool
  deriving DecidableEq, Repr

instance : Inhabited BotState :=
  ⟨⟨[], [], [], [], false⟩⟩

instance : DecidableEq (Except BotState BotState) := fun a b =>
  match a, b with
  | .ok x, .ok y =>
    if h : x = y then .isTrue (by rw [h]) else .isFalse (fun hc => h (by cases hc; rfl))
  | .error x, .error y =>
    if h : x = y then .isTrue (by rw [h]) else .isFalse (fun hc => h (by cases hc; rfl))
  | .ok _, .error _ => .isFalse (fun hc => by cases hc)
  | .error _, .ok _ => .isFalse (fun hc => by cases hc)

/-- The branch the per-comment check takes, labelling the control flow of
lines 152-182 with the spec's verdict names. -/
inductive Verdict
  | eligible
  | skipSeen
  | skipNoAuthor
  | skipNoKeyword
  | skipTooNew
  deriving DecidableEq, Repr

/-- `timedelta(days=args.age)` in seconds. -/
def minAccountAge (days : Nat) : Int :=
  (days : Int) * 86400

/-- Line 162, `args.keyword and args.keyword not in comment.body`: the
comment is rejected when a keyword is configured (and, by Python
truthiness, non-vacuous) and is not a substring of the body. An empty
keyword never blocks, exactly as in Python (`"" in body` is `True`). -/
def keywordBlocks (cfg : Config) (body : String) : Bool :=
  match cfg.keyword with
  | none => false
  | some kw => !(hasSubstr body.data kw.data)

/-- One comment of the `for comment in comments` body (lines 156-182),
excluding the `break` check, which lives in `scanComments`. Returns the
verdict and the new state, or `.error` with the state as of the fatal
`sys.exit(1)` when delivery fails after the key was popped.

The `.error` path models an `AttributeError` raised while delivering
(e.g. `strings.reply_title` missing in pm mode): by then
`keys.pop(0)` has already run. (An `AttributeError` on
`strings.prize_reply_message` itself would abort before the pop and
consumes nothing; it is not modelled since it can lose no key.)

The `keys = []` branch of the eligible case is unreachable: the scan
breaks before processing a comment when the queue is empty. -/
def processComment (cfg : Config) (now : Int) (dv : Comment → Bool)
    (st : BotState) (c : Comment) : Except BotState (Verdict × BotState) :=
  match c.author with
  | none => .ok (.skipNoAuthor, st)
  | some name =>
    if name ∈ st.authors ∨ c.id ∈ st.checked_comment_ids then
      .ok (.skipSeen, st)
    else if keywordBlocks cfg c.body then
      .ok (.skipNoKeyword, { st with checked_comment_ids := c.id :: st.checked_comment_ids })
    else if now - minAccountAge cfg.ageDays < c.created_utc then
      .ok (.skipTooNew, { st with checked_comment_ids := c.id :: st.checked_comment_ids,
                                  authors := name :: st.authors })
    else
      match st.keys with
      | [] => .ok (.eligible, { st with checked_comment_ids := c.id :: st.checked_comment_ids,
                                        authors := name :: st.authors })
      | k :: rest =>
        if dv c then
          .ok (.eligible, { st with keys := rest,
                                    checked_comment_ids := c.id :: st.checked_comment_ids,
                                    authors := name :: st.authors,
                                    awardedLog := st.awardedLog ++ [(name, pyStrip k)] })
        else
          .error { st with keys := rest,
                           checked_comment_ids := c.id :: st.checked_comment_ids,
                           authors := name :: st.authors }

/-- The `for comment in comments` loop (lines 152-182): before each
comment, `if len(keys) == 0: break`; then the per-comment body. -/
def scanComments (cfg : Config) (now : Int) (dv : Comment → Bool) :
    BotState → List Comment → Except BotState BotState
  | st, [] => .ok st
  | st, c :: cs =>
    if st.keys.isEmpty then .ok st
    else
      match processComment cfg now dv st c with
      | .error stF => .error stF
      | .ok (_, st') => scanComments cfg now dv st' cs

/-- `comments.sort(key=lambda c: c.created_utc)`: ascending by creation
time. -/
def chronoRel (a b : Comment) : Prop :=
  a.created_utc ≤ b.created_utc

instance : DecidableRel chronoRel :=
  fun a b => Int.decLe a.created_utc b.created_utc

instance : IsTotal Comment chronoRel :=
  ⟨fun a b => Int.le_total a.created_utc b.created_utc⟩

instance : IsTrans Comment chronoRel :=
  ⟨fun _ _ _ => Int.le_trans⟩

/-- Lines 147-150: shuffle the full list in random mode, else stably sort
the full list by `created_utc` ascending. Already-seen comments are not
excluded here; they are filtered per comment inside the scan. Python's
`list.sort` is a stable ascending sort; any two stable ascending sorts
agree on every input, so `List.insertionSort` (stable, ascending, a
permutation — see the C7 theorem) models it exactly. -/
def orderComments (cfg : Config) (shuffle : List Comment → List Comment)
    (cs : List Comment) : List Comment :=
  if cfg.randomMode then shuffle cs
  else List.insertionSort chronoRel cs

/-- One poll cycle (lines 139-187 body): fetch the submission and its
full comment list (recorded by `subFetched := true`, the assignment to
`s`), order it, and scan it. -/
def pollCycle (cfg : Config) (now : Int) (dv : Comment → Bool)
    (shuffle : List Comment → List Comment) (fetched : List Comment)
    (st : BotState) : Except BotState BotState :=
  scanComments cfg now dv { st with subFetched := true }
    (orderComments cfg shuffle fetched)

/-- The `while len(keys) > 0` loop. `fetch k` is the comment list the
Gateway returns on cycle `k`, `nowAt k` the clock, `shuffle k` the
permutation `random.shuffle` would apply. `fuel` bounds how many cycles
we unfold: `none` means the loop was still running after `fuel` cycles,
`some (.ok st)` that the guard failed (queue empty) and the loop exited,
`some (.error st)` that a delivery fault aborted the process. -/
def runLoop (cfg : Config) (dv : Comment → Bool) (fetch : Nat → List Comment)
    (nowAt : Nat → Int) (shuffle : Nat → List Comment → List Comment) :
    Nat → Nat → BotState → Option (Except BotState BotState)
  | 0, _, st => if st.keys.isEmpty then some (.ok st) else none
  | fuel + 1, k, st =>
    if st.keys.isEmpty then some (.ok st)
    else
      match pollCycle cfg (nowAt k) dv (shuffle k) (fetch k) st with
      | .error stF => some (.error stF)
      | .ok st' => runLoop cfg dv fetch nowAt shuffle fuel (k + 1) st'

/-- Lines 132-133: the excluded-author set starts seeded with the bot's
own username, the seen-comment set empty; `keys` holds the raw lines of
the key file (line 103). -/
def initState (username : String) (content : String) : BotState :=
  { keys := readlines content
    authors := [username]
    checked_comment_ids := []
    awardedLog := []
    subFetched := false }

/-- How the whole run ends. -/
inductive RunResult
  | completed (st : BotState)
  | fatalAbort (st : BotState)
  | crashNameError (st : BotState)
  deriving DecidableEq, Repr

/-- The whole program after argument parsing: run the poll loop from the
seeded state, then the finalizer (lines 189-196), which reads the
module-level `s`. If the loop body never ran, `s` was never assigned and
the finalizer raises an unhandled `NameError` (`crashNameError`); a
delivery fault aborts before the finalizer (`fatalAbort`). -/
def fullRun (fuel : Nat) (cfg : Config) (dv : Comment → Bool)
    (fetch : Nat → List Comment) (nowAt : Nat → Int)
    (shuffle : Nat → List Comment → List Comment) (content : String) :
    Option RunResult :=
  match runLoop cfg dv fetch nowAt shuffle fuel 0 (initState cfg.username content) with
  | none => none
  | some (.error st) => some (.fatalAbort st)
  | some (.ok st) =>
    some (if st.subFetched then .completed st else .crashNameError st)

/-- The state a loop outcome carries, whichever way it ended. -/
def exceptState : Except BotState BotState → BotState
  | .ok st => st
  | .error st => st

/-- The state a run outcome carries (`default` when still running). -/
def runState : Option RunResult → BotState
  | some (.completed st) => st
  | some (.fatalAbort st) => st
  | some (.crashNameError st) => st
  | none => default

/-- The new state after one per-comment step, whichever way it ended. -/
def stepState (cfg : Config) (now : Int) (dv : Comment → Bool)
    (st : BotState) (c : Comment) : BotState :=
  exceptState ((processComment cfg now dv st c).map Prod.snd)

/-- The verdict of one per-comment step (`none` on the fatal path). -/
def stepVerdict (cfg : Config) (now : Int) (dv : Comment → Bool)
    (st : BotState) (c : Comment) : Option Verdict :=
  match processComment cfg now dv st c with
  | .ok (v, _) => some v
  | .error _ => none

/-- The award-log discipline: recipients are distinct, every recipient is
in the excluded-author set, and the bot's own username `u` is in that set
but received nothing. -/
def GoodLog (u : String) (st : BotState) : Prop :=
  (st.awardedLog.map Prod.fst).Nodup ∧
  (∀ a ∈ st.awardedLog.map Prod.fst, a ∈ st.authors) ∧
  u ∈ st.authors ∧
  u ∉ st.awardedLog.map Prod.fst

/-! ### Concrete data used by witnesses and counterexamples -/

/-- A delivery oracle that always succeeds. -/
def dvAlways : Comment → Bool := fun _ => true

/-- A delivery oracle that always fails: models a `strings` table whose
`reply_title` (or similar) attribute is missing, so every delivery raises
`AttributeError` after the key was popped. -/
def dvNever : Comment → Bool := fun _ => false

/-- The identity shuffle oracle (unused while `randomMode` is off). -/
def noShuffle : Nat → List Comment → List Comment := fun _ cs => cs

/-- A constant clock at 100 seconds. -/
def nowAt100 : Nat → Int := fun _ => 100

/-- A constant clock at 200000 seconds (past the one-day mark). -/
def nowAtBig : Nat → Int := fun _ => 200000

/-- Chronological-scenario config: no keyword, minimum age 0 days. -/
def exCfgPlain : Config :=
  { username := "bot", ageDays := 0, keyword := none, randomMode := false }

/-- Keyword-scenario config: keyword "WIN", minimum age 1 day. -/
def exCfgKw : Config :=
  { username := "bot", ageDays := 1, keyword := some "WIN", randomMode := false }

def exA : Comment := { id := 1, author := some "A", created_utc := 10, body := "hello" }

def exB : Comment := { id := 2, author := some "B", created_utc := 5, body := "howdy" }

def exB2 : Comment := { id := 3, author := some "B2", created_utc := 5, body := "hey" }

def exB3 : Comment := { id := 4, author := some "B3", created_utc := 5, body := "yo" }

def exAlice : Comment := { id := 1, author := some "alice", created_utc := 0, body := "hi" }

def exNoAuthor : Comment := { id := 7, author := none, created_utc := 0, body := "gone" }

def exCarol : Comment :=
  { id := 5, author := some "carol", created_utc := 0, body := "i want to win" }

def exCarol2 : Comment :=
  { id := 6, author := some "carol", created_utc := 0, body := "i want to WIN" }

def exYoung : Comment :=
  { id := 4, author := some "young", created_utc := 150000, body := "WIN please" }

def exYoung2 : Comment :=
  { id := 9, author := some "young", created_utc := 150000, body := "WIN again" }

def exT1 : Comment := { id := 1, author := some "a1", created_utc := 10, body := "x" }

def exT2 : Comment := { id := 2, author := some "a2", created_utc := 20, body := "x" }

def exT3 : Comment := { id := 3, author := some "a3", created_utc := 30, body := "x" }

def fetchAB : Nat → List Comment := fun _ => [exA, exB]

def fetchAlice : Nat → List Comment := fun _ => [exAlice]

def fetchTrip : Nat → List Comment := fun _ => [exT1, exT2, exT3]

/-- Final state of the two-code chronological scenario. -/
def exStAB : BotState :=
  { keys := [], authors := ["A", "B", "bot"], checked_comment_ids := [1, 2],
    awardedLog := [("B", "CODE1"), ("A", "CODE2")], subFetched := true }

/-- Final state of the blank-line key-file scenario. -/
def exStTrip : BotState :=
  { keys := [], authors := ["a3", "a2", "a1", "bot"], checked_comment_ids := [3, 2, 1],
    awardedLog := [("a1", "K1"), ("a2", ""), ("a3", "K3")], subFetched := true }

/-- State after carol's first, keyword-less comment was skipped. -/
def exStCarol : BotState :=
  { keys := ["K1\n"], authors := ["bot"], checked_comment_ids := [5],
    awardedLog := [], subFetched := false }

/-- A state in which author "young" has already been excluded. -/
def exStYoung : BotState :=
  { keys := ["K1\n"], authors := ["young", "bot"], checked_comment_ids := [4],
    awardedLog := [], subFetched := false }

/-! ### Step-level unfolding lemmas -/

theorem processComment_author_none (cfg : Config) (now : Int) (dv : Comment → Bool)
    (st : BotState) (c : Comment) (h : c.author = none) :
    processComment cfg now dv st c = .ok (.skipNoAuthor, st) := by
  simp only [processComment, h]

theorem processComment_skipSeen (cfg : Config) (now : Int) (dv : Comment → Bool)
    (st : BotState) (c : Comment) (name : String) (h : c.author = some name)
    (hm : name ∈ st.authors ∨ c.id ∈ st.checked_comment_ids) :
    processComment cfg now dv st c = .ok (.skipSeen, st) := by
  simp only [processComment, h]
  rw [if_pos hm]

theorem processComment_skipNoKeyword (cfg : Config) (now : Int) (dv : Comment → Bool)
    (st : BotState) (c : Comment) (name : String) (h : c.author = some name)
    (hm : ¬(name ∈ st.authors ∨ c.id ∈ st.checked_comment_ids))
    (hk : keywordBlocks cfg c.body = true) :
    processComment cfg now dv st c =
      .ok (.skipNoKeyword, { st with checked_comment_ids := c.id :: st.checked_comment_ids }) := by
  simp only [processComment, h, hm, hk]
  simp

theorem processComment_skipTooNew (cfg : Config) (now : Int) (dv : Comment → Bool)
    (st : BotState) (c : Comment) (name : String) (h : c.author = some name)
    (hm : ¬(name ∈ st.authors ∨ c.id ∈ st.checked_comment_ids))
    (hk : keywordBlocks cfg c.body = false)
    (ha : now - minAccountAge cfg.ageDays < c.created_utc) :
    processComment cfg now dv st c =
      .ok (.skipTooNew, { st with checked_comment_ids := c.id :: st.checked_comment_ids,
                                  authors := name :: st.authors }) := by
  simp only [processComment, h, hm, hk, ha]
  simp

theorem processComment_award (cfg : Config) (now : Int) (dv : Comment → Bool)
    (st : BotState) (c : Comment) (name : String) (k : String) (rest : List String)
    (h : c.author = some name)
    (hm : ¬(name ∈ st.authors ∨ c.id ∈ st.checked_comment_ids))
    (hk : keywordBlocks cfg c.body = false)
    (ha : ¬(now - minAccountAge cfg.ageDays < c.created_utc))
    (hkeys : st.keys = k :: rest) (hdv : dv c = true) :
    processComment cfg now dv st c =
      .ok (.eligible, { st with keys := rest,
                                checked_comment_ids := c.id :: st.checked_comment_ids,
                                authors := name :: st.authors,
                                awardedLog := st.awardedLog ++ [(name, pyStrip k)] }) := by
  simp only [processComment, h, hm, hk, ha, hkeys, hdv]
  simp

theorem processComment_deliveryFail (cfg : Config) (now : Int) (dv : Comment → Bool)
    (st : BotState) (c : Comment) (name : String) (k : String) (rest : List String)
    (h : c.author = some name)
    (hm : ¬(name ∈ st.authors ∨ c.id ∈ st.checked_comment_ids))
    (hk : keywordBlocks cfg c.body = false)
    (ha : ¬(now - minAccountAge cfg.ageDays < c.created_utc))
    (hkeys : st.keys = k :: rest) (hdv : dv c = false) :
    processComment cfg now dv st c =
      .error { st with keys := rest,
                       checked_comment_ids := c.id :: st.checked_comment_ids,
                       authors := name :: st.authors } := by
  simp only [processComment, h, hm, hk, ha, hkeys, hdv]
  simp

/-! ### Step-level accounting and invariant lemmas -/

theorem processComment_ok_trace (cfg : Config) (now : Int) (dv : Comment → Bool)
    (st : BotState) (c : Comment) (v : Verdict) (st' : BotState)
    (h : processComment cfg now dv st c = .ok (v, st')) :
    ∃ popped, st.keys = popped ++ st'.keys ∧
      st'.awardedLog.map Prod.snd = st.awardedLog.map Prod.snd ++ popped.map pyStrip := by
  unfold processComment at h
  split at h
  · cases h; exact ⟨[], by simp⟩
  · split at h
    · cases h; exact ⟨[], by simp⟩
    · split at h
      · cases h; exact ⟨[], by simp⟩
      · split at h
        · cases h; exact ⟨[], by simp⟩
        · split at h
          · cases h; exact ⟨[], by simp⟩
          · split at h
            · cases h
              rename_i k rest hkeys _
              exact ⟨[k], by simp [hkeys]⟩
            · cases h

theorem processComment_err_trace (cfg : Config) (now : Int) (dv : Comment → Bool)
    (st : BotState) (c : Comment) (stF : BotState)
    (h : processComment cfg now dv st c = .error stF) :
    ∃ k, st.keys = k :: stF.keys ∧ stF.awardedLog = st.awardedLog := by
  unfold processComment at h
  split at h
  · cases h
  · split at h
    · cases h
    · split at h
      · cases h
      · split at h
        · cases h
        · split at h
          · cases h
          · split at h
            · cases h
            · cases h
              rename_i k rest hkeys _
              exact ⟨k, by simp [hkeys]⟩

theorem processComment_ok_authors (cfg : Config) (now : Int) (dv : Comment → Bool)
    (st : BotState) (c : Comment) (v : Verdict) (st' : BotState)
    (h : processComment cfg now dv st c = .ok (v, st')) :
    ∀ a, a ∈ st.authors → a ∈ st'.authors := by
  unfold processComment at h
  split at h
  · cases h; exact fun a ha => ha
  · split at h
    · cases h; exact fun a ha => ha
    · split at h
      · cases h; exact fun a ha => ha
      · split at h
        · cases h; exact fun a ha => List.mem_cons_of_mem _ ha
        · split at h
          · cases h; exact fun a ha => List.mem_cons_of_mem _ ha
          · split at h
            · cases h; exact fun a ha => List.mem_cons_of_mem _ ha
            · cases h

theorem processComment_err_authors (cfg : Config) (now : Int) (dv : Comment → Bool)
    (st : BotState) (c : Comment) (stF : BotState)
    (h : processComment cfg now dv st c = .error stF) :
    ∀ a, a ∈ st.authors → a ∈ stF.authors := by
  unfold processComment at h
  split at h
  · cases h
  · split at h
    · cases h
    · split at h
      · cases h
      · split at h
        · cases h
        · split at h
          · cases h
          · split at h
            · cases h
            · cases h; exact fun a ha => List.mem_cons_of_mem _ ha

theorem processComment_goodLog (u : String) (cfg : Config) (now : Int)
    (dv : Comment → Bool) (st : BotState) (c : Comment) (v : Verdict) (st' : BotState)
    (h : processComment cfg now dv st c = .ok (v, st')) (hg : GoodLog u st) :
    GoodLog u st' := by
  obtain ⟨hnd, hsub, hu, hnu⟩ := hg
  unfold processComment at h
  split at h
  · cases h; exact ⟨hnd, hsub, hu, hnu⟩
  · split at h
    · cases h; exact ⟨hnd, hsub, hu, hnu⟩
    · split at h
      · cases h; exact ⟨hnd, hsub, hu, hnu⟩
      · split at h
        · cases h
          exact ⟨hnd, fun a ha => List.mem_cons_of_mem _ (hsub a ha),
                 List.mem_cons_of_mem _ hu, hnu⟩
        · split at h
          · cases h
            exact ⟨hnd, fun a ha => List.mem_cons_of_mem _ (hsub a ha),
                   List.mem_cons_of_mem _ hu, hnu⟩
          · split at h
            · cases h
              rename_i name hautheq hguard hkw hage x k rest hkeys hdv
              have hname := fun hmem => hguard (Or.inl hmem)
              have hnlog := fun hmem => hname (hsub _ hmem)
              refine ⟨?_, ?_, List.mem_cons_of_mem _ hu, ?_⟩
              · simpa using List.Nodup.append hnd (List.nodup_singleton name)
                  (by simpa using hnlog)
              · intro a ha
                simp only [List.map_append] at ha
                rcases List.mem_append.mp ha with hL | hR
                · exact List.mem_cons_of_mem _ (hsub a hL)
                · simp at hR
                  subst hR
                  exact List.mem_cons_self _ _
              · simp only [List.map_append]
                intro hmem
                rcases List.mem_append.mp hmem with hL | hR
                · exact hnu hL
                · simp at hR
                  subst hR
                  exact hname hu
            · cases h

theorem processComment_goodLog_err (u : String) (cfg : Config) (now : Int)
    (dv : Comment → Bool) (st : BotState) (c : Comment) (stF : BotState)
    (h : processComment cfg now dv st c = .error stF) (hg : GoodLog u st) :
    GoodLog u stF := by
  obtain ⟨hnd, hsub, hu, hnu⟩ := hg
  unfold processComment at h
  split at h
  · cases h
  · split at h
    · cases h
    · split at h
      · cases h
      · split at h
        · cases h
        · split at h
          · cases h
          · split at h
            · cases h
            · cases h
              exact ⟨hnd, fun a ha => List.mem_cons_of_mem _ (hsub a ha),
                     List.mem_cons_of_mem _ hu, hnu⟩

/-! ### Scan-level lemmas -/

theorem scanComments_ok_trace (cfg : Config) (now : Int) (dv : Comment → Bool) :
    ∀ (cs : List Comment) (st st' : BotState),
    scanComments cfg now dv st cs = .ok st' →
    ∃ popped, st.keys = popped ++ st'.keys ∧
      st'.awardedLog.map Prod.snd = st.awardedLog.map Prod.snd ++ popped.map pyStrip
  | [], st, st', h => by
    simp only [scanComments] at h
    cases h
    exact ⟨[], by simp⟩
  | c :: cs, st, st', h => by
    simp only [scanComments] at h
    split at h
    · cases h
      exact ⟨[], by simp⟩
    · cases hpc : processComment cfg now dv st c with
      | error stF =>
        simp only [hpc] at h
        cases h
      | ok p =>
        obtain ⟨v, st1⟩ := p
        simp only [hpc] at h
        obtain ⟨p1, hk1, hl1⟩ := processComment_ok_trace cfg now dv st c v st1 hpc
        obtain ⟨p2, hk2, hl2⟩ := scanComments_ok_trace cfg now dv cs st1 st' h
        refine ⟨p1 ++ p2, ?_, ?_⟩
        · rw [hk1, hk2, List.append_assoc]
        · rw [hl2, hl1, List.map_append, List.append_assoc]

theorem scanComments_err_trace (cfg : Config) (now : Int) (dv : Comment → Bool) :
    ∀ (cs : List Comment) (st stF : BotState),
    scanComments cfg now dv st cs = .error stF →
    ∃ popped kLost, st.keys = popped ++ kLost :: stF.keys ∧
      stF.awardedLog.map Prod.snd = st.awardedLog.map Prod.snd ++ popped.map pyStrip
  | [], st, stF, h => by
    simp only [scanComments] at h
    cases h
  | c :: cs, st, stF, h => by
    simp only [scanComments] at h
    split at h
    · cases h
    · cases hpc : processComment cfg now dv st c with
      | error stE =>
        simp only [hpc] at h
        cases h
        obtain ⟨kLost, hk, hl⟩ := processComment_err_trace cfg now dv st c stF hpc
        exact ⟨[], kLost, by simpa using hk, by simp [hl]⟩
      | ok p =>
        obtain ⟨v, st1⟩ := p
        simp only [hpc] at h
        obtain ⟨p1, hk1, hl1⟩ := processComment_ok_trace cfg now dv st c v st1 hpc
        obtain ⟨p2, kLost, hk2, hl2⟩ := scanComments_err_trace cfg now dv cs st1 stF h
        refine ⟨p1 ++ p2, kLost, ?_, ?_⟩
        · rw [hk1, hk2, List.append_assoc]
        · rw [hl2, hl1, List.map_append, List.append_assoc]

theorem scanComments_authors_mono (cfg : Config) (now : Int) (dv : Comment → Bool) :
    ∀ (cs : List Comment) (st : BotState) (r : Except BotState BotState),
    scanComments cfg now dv st cs = r →
    ∀ a, a ∈ st.authors → a ∈ (exceptState r).authors
  | [], st, r, h => by
    simp only [scanComments] at h
    cases h
    exact fun a ha => ha
  | c :: cs, st, r, h => by
    simp only [scanComments] at h
    split at h
    · cases h
      exact fun a ha => ha
    · cases hpc : processComment cfg now dv st c with
      | error stE =>
        simp only [hpc] at h
        cases h
        exact fun a ha => processComment_err_authors cfg now dv st c stE hpc a ha
      | ok p =>
        obtain ⟨v, st1⟩ := p
        simp only [hpc] at h
        exact fun a ha =>
          scanComments_authors_mono cfg now dv cs st1 r h a
            (processComment_ok_authors cfg now dv st c v st1 hpc a ha)

theorem scanComments_goodLog (u : String) (cfg : Config) (now : Int) (dv : Comment → Bool) :
    ∀ (cs : List Comment) (st : BotState) (r : Except BotState BotState),
    scanComments cfg now dv st cs = r → GoodLog u st →
    GoodLog u (exceptState r)
  | [], st, r, h, hg => by
    simp only [scanComments] at h
    cases h
    exact hg
  | c :: cs, st, r, h, hg => by
    simp only [scanComments] at h
    split at h
    · cases h
      exact hg
    · cases hpc : processComment cfg now dv st c with
      | error stE =>
        simp only [hpc] at h
        cases h
        exact processComment_goodLog_err u cfg now dv st c stE hpc hg
      | ok p =>
        obtain ⟨v, st1⟩ := p
        simp only [hpc] at h
        exact scanComments_goodLog u cfg now dv cs st1 r h
          (processComment_goodLog u cfg now dv st c v st1 hpc hg)

/-! ### Loop-level lemmas -/

theorem pollCycle_eq (cfg : Config) (now : Int) (dv : Comment → Bool)
    (shuffle : List Comment → List Comment) (fetched : List Comment) (st : BotState) :
    pollCycle cfg now dv shuffle fetched st =
      scanComments cfg now dv { st with subFetched := true }
        (orderComments cfg shuffle fetched) := rfl

theorem runLoop_ok_trace (cfg : Config) (dv : Comment → Bool)
    (fetch : Nat → List Comment) (nowAt : Nat → Int)
    (shuffle : Nat → List Comment → List Comment) :
    ∀ (fuel k : Nat) (st st' : BotState),
    runLoop cfg dv fetch nowAt shuffle fuel k st = some (.ok st') →
    ∃ popped, st.keys = popped ++ st'.keys ∧
      st'.awardedLog.map Prod.snd = st.awardedLog.map Prod.snd ++ popped.map pyStrip := by
  intro fuel
  induction fuel with
  | zero =>
    intro k st st' h
    rw [runLoop] at h
    split at h
    · cases h
      exact ⟨[], by simp⟩
    · cases h
  | succ fuel ih =>
    intro k st st' h
    rw [runLoop] at h
    split at h
    · cases h
      exact ⟨[], by simp⟩
    · cases hpc : pollCycle cfg (nowAt k) dv (shuffle k) (fetch k) st with
      | error stF =>
        simp only [hpc] at h
        cases h
      | ok st1 =>
        simp only [hpc] at h
        obtain ⟨p1, hk1, hl1⟩ := scanComments_ok_trace cfg (nowAt k) dv
          (orderComments cfg (shuffle k) (fetch k)) { st with subFetched := true } st1 hpc
        obtain ⟨p2, hk2, hl2⟩ := ih (k + 1) st1 st' h
        refine ⟨p1 ++ p2, ?_, ?_⟩
        · rw [show st.keys = BotState.keys { st with subFetched := true } from rfl,
              hk1, hk2, List.append_assoc]
        · rw [hl2, hl1, List.map_append, List.append_assoc]

theorem runLoop_err_trace (cfg : Config) (dv : Comment → Bool)
    (fetch : Nat → List Comment) (nowAt : Nat → Int)
    (shuffle : Nat → List Comment → List Comment) :
    ∀ (fuel k : Nat) (st stF : BotState),
    runLoop cfg dv fetch nowAt shuffle fuel k st = some (.error stF) →
    ∃ popped kLost, st.keys = popped ++ kLost :: stF.keys ∧
      stF.awardedLog.map Prod.snd = st.awardedLog.map Prod.snd ++ popped.map pyStrip := by
  intro fuel
  induction fuel with
  | zero =>
    intro k st stF h
    rw [runLoop] at h
    split at h
    · cases h
    · cases h
  | succ fuel ih =>
    intro k st stF h
    rw [runLoop] at h
    split at h
    · cases h
    · cases hpc : pollCycle cfg (nowAt k) dv (shuffle k) (fetch k) st with
      | error stE =>
        simp only [hpc] at h
        cases h
        obtain ⟨p1, kLost, hk1, hl1⟩ := scanComments_err_trace cfg (nowAt k) dv
          (orderComments cfg (shuffle k) (fetch k)) { st with subFetched := true } stF hpc
        exact ⟨p1, kLost, hk1, hl1⟩
      | ok st1 =>
        simp only [hpc] at h
        obtain ⟨p1, hk1, hl1⟩ := scanComments_ok_trace cfg (nowAt k) dv
          (orderComments cfg (shuffle k) (fetch k)) { st with subFetched := true } st1 hpc
        obtain ⟨p2, kLost, hk2, hl2⟩ := ih (k + 1) st1 stF h
        refine ⟨p1 ++ p2, kLost, ?_, ?_⟩
        · rw [show st.keys = BotState.keys { st with subFetched := true } from rfl,
              hk1, hk2, List.append_assoc]
        · rw [hl2, hl1, List.map_append, List.append_assoc]

theorem runLoop_authors_mono (cfg : Config) (dv : Comment → Bool)
    (fetch : Nat → List Comment) (nowAt : Nat → Int)
    (shuffle : Nat → List Comment → List Comment) :
    ∀ (fuel k : Nat) (st : BotState) (r : Except BotState BotState),
    runLoop cfg dv fetch nowAt shuffle fuel k st = some r →
    ∀ a, a ∈ st.authors → a ∈ (exceptState r).authors := by
  intro fuel
  induction fuel with
  | zero =>
    intro k st r h
    rw [runLoop] at h
    split at h
    · cases h
      exact fun a ha => ha
    · cases h
  | succ fuel ih =>
    intro k st r h
    rw [runLoop] at h
    split at h
    · cases h
      exact fun a ha => ha
    · cases hpc : pollCycle cfg (nowAt k) dv (shuffle k) (fetch k) st with
      | error stE =>
        simp only [hpc] at h
        cases h
        exact fun a ha => scanComments_authors_mono cfg (nowAt k) dv
          (orderComments cfg (shuffle k) (fetch k)) { st with subFetched := true }
          (.error stE) hpc a ha
      | ok st1 =>
        simp only [hpc] at h
        exact fun a ha => ih (k + 1) st1 r h a
          (scanComments_authors_mono cfg (nowAt k) dv
            (orderComments cfg (shuffle k) (fetch k)) { st with subFetched := true }
            (.ok st1) hpc a ha)

theorem runLoop_goodLog (u : String) (cfg : Config) (dv : Comment → Bool)
    (fetch : Nat → List Comment) (nowAt : Nat → Int)
    (shuffle : Nat → List Comment → List Comment) :
    ∀ (fuel k : Nat) (st : BotState) (r : Except BotState BotState),
    runLoop cfg dv fetch nowAt shuffle fuel k st = some r → GoodLog u st →
    GoodLog u (exceptState r) := by
  intro fuel
  induction fuel with
  | zero =>
    intro k st r h hg
    rw [runLoop] at h
    split at h
    · cases h
      exact hg
    · cases h
  | succ fuel ih =>
    intro k st r h hg
    rw [runLoop] at h
    split at h
    · cases h
      exact hg
    · cases hpc : pollCycle cfg (nowAt k) dv (shuffle k) (fetch k) st with
      | error stE =>
        simp only [hpc] at h
        cases h
        exact scanComments_goodLog u cfg (nowAt k) dv
          (orderComments cfg (shuffle k) (fetch k)) { st with subFetched := true }
          (.error stE) hpc hg
      | ok st1 =>
        simp only [hpc] at h
        exact ih (k + 1) st1 r h
          (scanComments_goodLog u cfg (nowAt k) dv
            (orderComments cfg (shuffle k) (fetch k)) { st with subFetched := true }
            (.ok st1) hpc hg)

/-! ### Ordering and further helper lemmas -/

theorem stepVerdict_skipNoKeyword_inv (cfg : Config) (now : Int) (dv : Comment → Bool)
    (st : BotState) (c : Comment)
    (h : stepVerdict cfg now dv st c = some .skipNoKeyword) :
    keywordBlocks cfg c.body = true := by
  unfold stepVerdict at h
  cases hpc : processComment cfg now dv st c with
  | error stF =>
    rw [hpc] at h
    cases h
  | ok p =>
    obtain ⟨v, st1⟩ := p
    rw [hpc] at h
    simp only [Option.some.injEq] at h
    subst h
    unfold processComment at hpc
    split at hpc
    · simp at hpc
    · split at hpc
      · simp at hpc
      · split at hpc
        · rename_i hkb
          exact hkb
        · split at hpc
          · simp at hpc
          · split at hpc
            · simp at hpc
            · split at hpc
              · simp at hpc
              · cases hpc

theorem scanComments_drains (cfg : Config) (now : Int) (dv : Comment → Bool) :
    ∀ (cs : List Comment) (st : BotState),
    (∀ c ∈ cs, (∃ a, c.author = some a ∧ a ∉ st.authors) ∧
       c.id ∉ st.checked_comment_ids ∧ keywordBlocks cfg c.body = false ∧
       ¬(now - minAccountAge cfg.ageDays < c.created_utc) ∧ dv c = true) →
    (cs.map Comment.author).Nodup →
    (cs.map Comment.id).Nodup →
    st.keys.length ≤ cs.length →
    ∃ st', scanComments cfg now dv st cs = .ok st' ∧ st'.keys = []
  | [], st, _, _, _, hlen => by
    have hnil : st.keys = [] := by simpa using hlen
    exact ⟨st, by simp [scanComments], hnil⟩
  | c :: cs, st, hall, hna, hni, hlen => by
    by_cases hemp : st.keys = []
    · exact ⟨st, by simp [scanComments, hemp], hemp⟩
    · obtain ⟨k, rest, hkeys⟩ : ∃ k rest, st.keys = k :: rest := by
        cases hks : st.keys with
        | nil => exact absurd hks hemp
        | cons x xs => exact ⟨x, xs, rfl⟩
      obtain ⟨⟨a, hauth, hfa⟩, hfi, hkb, hage, hdvc⟩ := hall c (List.mem_cons_self c cs)
      have hm : ¬(a ∈ st.authors ∨ c.id ∈ st.checked_comment_ids) := by
        rintro (h1 | h2)
        · exact hfa h1
        · exact hfi h2
      have hpc := processComment_award cfg now dv st c a k rest hauth hm hkb hage hkeys hdvc
      have hna1 : c.author ∉ cs.map Comment.author ∧ (cs.map Comment.author).Nodup := by
        rw [List.map_cons, List.nodup_cons] at hna
        exact hna
      have hni1 : c.id ∉ cs.map Comment.id ∧ (cs.map Comment.id).Nodup := by
        rw [List.map_cons, List.nodup_cons] at hni
        exact hni
      obtain ⟨st', hscan, hk'⟩ := scanComments_drains cfg now dv cs
        { st with keys := rest,
                  checked_comment_ids := c.id :: st.checked_comment_ids,
                  authors := a :: st.authors,
                  awardedLog := st.awardedLog ++ [(a, pyStrip k)] }
        (by
          intro c2 hc2
          obtain ⟨⟨a2, hauth2, hfa2⟩, hfi2, hkb2, hage2, hdvc2⟩ :=
            hall c2 (List.mem_cons_of_mem c hc2)
          refine ⟨⟨a2, hauth2, ?_⟩, ?_, hkb2, hage2, hdvc2⟩
          · intro hmem
            rcases List.mem_cons.mp hmem with h1 | h2
            · apply hna1.1
              have heq : c2.author = c.author := by rw [hauth2, hauth, h1]
              rw [← heq]
              exact List.mem_map_of_mem Comment.author hc2
            · exact hfa2 h2
          · intro hmem
            rcases List.mem_cons.mp hmem with h1 | h2
            · apply hni1.1
              rw [← h1]
              exact List.mem_map_of_mem Comment.id hc2
            · exact hfi2 h2)
        hna1.2 hni1.2
        (by
          have hlen2 : st.keys.length = rest.length + 1 := by rw [hkeys]; rfl
          show rest.length ≤ cs.length
          simp only [List.length_cons] at hlen
          omega)
      refine ⟨st', ?_, hk'⟩
      have hne : st.keys.isEmpty = false := by rw [hkeys]; rfl
      simp only [scanComments, hne, Bool.false_eq_true, if_false, hpc]
      exact hscan

/-! ### Claim theorems -/

/-- C3: a keyword failure is retryable. With a keyword configured and
absent from a fresh comment's body, the step returns SKIP_NO_KEYWORD and
changes only the seen-set: the prize queue, the excluded-author set and
the award log are untouched, and — since the conclusion holds with no
constraint on the comment's `created_utc` — the author is never age-tested
in that pass. Moreover a later comment by the same author that does
contain the keyword is eligible and is awarded the front code, provided
the author was not added to the excluded set in between (which an
intervening age failure would have done). -/
theorem C3_keyword_failure_retryable (cfg : Config) (now : Int) (dv : Comment → Bool)
    (st : BotState) (c : Comment) (kw name : String)
    (hkw : cfg.keyword = some kw)
    (hauth : c.author = some name)
    (hfa : name ∉ st.authors) (hfi : c.id ∉ st.checked_comment_ids)
    (hnokw : hasSubstr c.body.data kw.data = false) :
    processComment cfg now dv st c =
      .ok (.skipNoKeyword, { st with checked_comment_ids := c.id :: st.checked_comment_ids }) ∧
    (∀ (c2 : Comment) (st2 : BotState) (now2 : Int) (k : String) (rest : List String),
      c2.author = some name → name ∉ st2.authors → c2.id ∉ st2.checked_comment_ids →
      hasSubstr c2.body.data kw.data = true →
      ¬(now2 - minAccountAge cfg.ageDays < c2.created_utc) →
      st2.keys = k :: rest → dv c2 = true →
      processComment cfg now2 dv st2 c2 =
        .ok (.eligible, { st2 with keys := rest,
                                   checked_comment_ids := c2.id :: st2.checked_comment_ids,
                                   authors := name :: st2.authors,
                                   awardedLog := st2.awardedLog ++ [(name, pyStrip k)] })) := by
  constructor
  · have hm : ¬(name ∈ st.authors ∨ c.id ∈ st.checked_comment_ids) := by
      rintro (h1 | h2)
      · exact hfa h1
      · exact hfi h2
    have hkb : keywordBlocks cfg c.body = true := by
      simp [keywordBlocks, hkw, hnokw]
    exact processComment_skipNoKeyword cfg now dv st c name hauth hm hkb
  · intro c2 st2 now2 k rest hauth2 hfa2 hfi2 hyeskw hage hkeys hdvc
    have hm2 : ¬(name ∈ st2.authors ∨ c2.id ∈ st2.checked_comment_ids) := by
      rintro (h1 | h2)
      · exact hfa2 h1
      · exact hfi2 h2
    have hkb2 : keywordBlocks cfg c2.body = false := by
      simp [keywordBlocks, hkw, hyeskw]
    exact processComment_award cfg now2 dv st2 c2 name k rest hauth2 hm2 hkb2 hage hkeys hdvc

/-- C3 witness: carol's first comment ("i want to win", no "WIN") is
skipped with only the seen-set growing; her second comment containing
"WIN" is then awarded the front code. -/
theorem C3_witness :
    processComment exCfgKw 200000 dvAlways (initState "bot" "K1\n") exCarol =
      .ok (.skipNoKeyword, exStCarol) ∧
    processComment exCfgKw 200000 dvAlways exStCarol exCarol2 =
      .ok (.eligible, { keys := [], authors := ["carol", "bot"],
                        checked_comment_ids := [6, 5],
                        awardedLog := [("carol", "K1")], subFetched := false }) := by
  have h := C3_keyword_failure_retryable exCfgKw 200000 dvAlways
    (initState "bot" "K1\n") exCarol "WIN" "carol" rfl rfl
    (by decide) (by decide) (by decide)
  exact ⟨h.1, h.2 exCarol2 exStCarol 200000 "K1\n" [] rfl (by decide) (by decide)
    (by decide) (by decide) rfl rfl⟩

/-- C4: the age gate is permanent. A fresh, keyword-passing comment whose
author's account age is strictly below the minimum (equivalently,
`now - minAccountAge < created_utc`, line 168) gets SKIP_TOO_NEW, the
author is added to the excluded set, and no prize code or award is
consumed. Any later comment by an author in the excluded set is a no-op
SKIP_SEEN in any state and any configuration, and membership in the
excluded set persists through the rest of the run. -/
theorem C4_age_gate_permanent (cfg : Config) (now : Int) (dv : Comment → Bool)
    (st : BotState) (c : Comment) (name : String)
    (hauth : c.author = some name)
    (hfa : name ∉ st.authors) (hfi : c.id ∉ st.checked_comment_ids)
    (hkb : keywordBlocks cfg c.body = false)
    (hage : now - minAccountAge cfg.ageDays < c.created_utc) :
    processComment cfg now dv st c =
      .ok (.skipTooNew, { st with checked_comment_ids := c.id :: st.checked_comment_ids,
                                  authors := name :: st.authors }) ∧
    (∀ (cfg2 : Config) (now2 : Int) (dv2 : Comment → Bool) (st2 : BotState) (c2 : Comment),
      c2.author = some name → name ∈ st2.authors →
      processComment cfg2 now2 dv2 st2 c2 = .ok (.skipSeen, st2)) ∧
    (∀ (dv2 : Comment → Bool) (fetch : Nat → List Comment) (nowAt : Nat → Int)
       (shuffle : Nat → List Comment → List Comment) (fuel k : Nat) (st2 : BotState)
       (r : Except BotState BotState),
      name ∈ st2.authors →
      runLoop cfg dv2 fetch nowAt shuffle fuel k st2 = some r →
      name ∈ (exceptState r).authors) := by
  refine ⟨?_, ?_, ?_⟩
  · have hm : ¬(name ∈ st.authors ∨ c.id ∈ st.checked_comment_ids) := by
      rintro (h1 | h2)
      · exact hfa h1
      · exact hfi h2
    exact processComment_skipTooNew cfg now dv st c name hauth hm hkb hage
  · intro cfg2 now2 dv2 st2 c2 hauth2 hmem
    exact processComment_skipSeen cfg2 now2 dv2 st2 c2 name hauth2 (Or.inl hmem)
  · intro dv2 fetch nowAt shuffle fuel k st2 r hmem hrun
    exact runLoop_authors_mono cfg dv2 fetch nowAt shuffle fuel k st2 r hrun name hmem

/-- C4 witness: at clock 200000 with a one-day minimum, the account
created at 150000 is too new; the author is excluded without consuming
the code, and a later comment of theirs is a no-op SKIP_SEEN. -/
theorem C4_witness :
    processComment exCfgKw 200000 dvAlways (initState "bot" "K1\n") exYoung =
      .ok (.skipTooNew, exStYoung) ∧
    processComment exCfgKw 200000 dvAlways exStYoung exYoung2 = .ok (.skipSeen, exStYoung) := by
  have h := C4_age_gate_permanent exCfgKw 200000 dvAlways
    (initState "bot" "K1\n") exYoung "young" rfl (by decide) (by decide)
    (by decide) (by decide)
  exact ⟨h.1, h.2.1 exCfgKw 200000 dvAlways exStYoung exYoung2 rfl (by decide)⟩

/-- C5 counterexample: on a deleted-author comment the filter does return
SKIP_NO_AUTHOR, but the comment id is NOT added to the seen set,
refuting the claim that it is still marked seen: the combined guard of
line 158 short-circuits before the `checked_comment_ids.add` of line 160. -/
theorem C5_counterexample :
    stepVerdict exCfgPlain 100 dvAlways (initState "bot" "K1\n") exNoAuthor =
      some .skipNoAuthor ∧
    exNoAuthor.id ∉
      (stepState exCfgPlain 100 dvAlways (initState "bot" "K1\n") exNoAuthor).checked_comment_ids
    := by
  constructor
  · rfl
  · decide

/-- C5 (amended): when the comment's author is absent, the step returns
SKIP_NO_AUTHOR and leaves the state completely unchanged — in particular
the comment id is NOT added to the seen set, so the comment is
re-examined (and skipped again) on every later poll; no prize code is
consumed and no author is recorded. -/
theorem C5_no_author_skips_unmarked (cfg : Config) (now : Int) (dv : Comment → Bool)
    (st : BotState) (c : Comment) (h : c.author = none) :
    processComment cfg now dv st c = .ok (.skipNoAuthor, st) :=
  processComment_author_none cfg now dv st c h

/-- C5 witness: the amended statement at the deleted-author comment. -/
theorem C5_witness :
    processComment exCfgPlain 100 dvAlways (initState "bot" "K1\n") exNoAuthor =
      .ok (.skipNoAuthor, initState "bot" "K1\n") :=
  C5_no_author_skips_unmarked exCfgPlain 100 dvAlways (initState "bot" "K1\n") exNoAuthor rfl

/-- C9: with a required keyword configured, a fresh comment is rejected
with SKIP_NO_KEYWORD exactly when the keyword is not a contiguous,
case-sensitive substring of the raw body (Python `in`, line 162) — no
case folding, word boundaries or normalization; in particular "WIN" is
not found in a body containing only lowercase "win". -/
theorem C9_keyword_exact_substring (cfg : Config) (now : Int) (dv : Comment → Bool)
    (st : BotState) (c : Comment) (kw name : String)
    (hkw : cfg.keyword = some kw) (hauth : c.author = some name)
    (hfa : name ∉ st.authors) (hfi : c.id ∉ st.checked_comment_ids) :
    (stepVerdict cfg now dv st c = some .skipNoKeyword ↔
      hasSubstr c.body.data kw.data = false) ∧
    hasSubstr "thanks, i want to win".data "WIN".data = false ∧
    hasSubstr "thanks, i want to WIN".data "WIN".data = true := by
  refine ⟨⟨?_, ?_⟩, by decide, by decide⟩
  · intro hv
    have hkb := stepVerdict_skipNoKeyword_inv cfg now dv st c hv
    simpa [keywordBlocks, hkw] using hkb
  · intro hs
    have hm : ¬(name ∈ st.authors ∨ c.id ∈ st.checked_comment_ids) := by
      rintro (h1 | h2)
      · exact hfa h1
      · exact hfi h2
    have hkb : keywordBlocks cfg c.body = true := by
      simp [keywordBlocks, hkw, hs]
    unfold stepVerdict
    rw [processComment_skipNoKeyword cfg now dv st c name hauth hm hkb]

/-- C9 witness: the exact-substring characterization at carol's
lowercase-"win" comment under keyword "WIN". -/
theorem C9_witness :
    (stepVerdict exCfgKw 200000 dvAlways (initState "bot" "K1\n") exCarol =
        some .skipNoKeyword ↔
      hasSubstr exCarol.body.data "WIN".data = false) ∧
    hasSubstr "thanks, i want to win".data "WIN".data = false ∧
    hasSubstr "thanks, i want to WIN".data "WIN".data = true :=
  C9_keyword_exact_substring exCfgKw 200000 dvAlways (initState "bot" "K1\n")
    exCarol "WIN" "carol" rfl rfl (by decide) (by decide)

/-- C10: a non-empty initial PrizeQueue is an unstated precondition for
clean completion. If the key file yields no lines, the `while` guard
fails at once: the loop body never executes, the submission variable is
never assigned (the final state is the untouched seeded state with
`subFetched = false`), and the finalizer's unguarded read of `s`
raises an unhandled `NameError`, so the run does not complete cleanly. -/
theorem C10_empty_queue_crashes_finalizer (fuel : Nat) (cfg : Config)
    (dv : Comment → Bool) (fetch : Nat → List Comment) (nowAt : Nat → Int)
    (shuffle : Nat → List Comment → List Comment) (content : String)
    (hempty : readlines content = []) :
    fullRun fuel cfg dv fetch nowAt shuffle content =
      some (.crashNameError (initState cfg.username content)) := by
  have hloop : runLoop cfg dv fetch nowAt shuffle fuel 0 (initState cfg.username content) =
      some (.ok (initState cfg.username content)) := by
    cases fuel with
    | zero =>
      rw [runLoop]
      simp [initState, hempty]
    | succ n =>
      rw [runLoop]
      simp [initState, hempty]
  unfold fullRun
  rw [hloop]
  simp [initState]

/-- C10 witness: the empty key file crashes the finalizer. -/
theorem C10_witness :
    fullRun 3 exCfgPlain dvAlways fetchAB nowAt100 noShuffle "" =
      some (.crashNameError (initState "bot" "")) :=
  C10_empty_queue_crashes_finalizer 3 exCfgPlain dvAlways fetchAB nowAt100 noShuffle "" rfl

/-- C1 counterexample: one key, one eligible comment, delivery fails
(missing strings attribute in the delivery calls). The run aborts with
the queue empty and the award log empty: the sole code was popped
(line 173) before delivery was attempted and is lost, refuting the claim
that a code is removed only once successfully committed and that a
delivery failure cannot lose it. -/
theorem C1_counterexample :
    fullRun 1 exCfgPlain dvNever fetchAlice nowAt100 noShuffle "K1\n" =
      some (.fatalAbort { keys := [], authors := ["alice", "bot"],
                          checked_comment_ids := [1], awardedLog := [],
                          subFetched := true }) ∧
    ¬((runState (fullRun 1 exCfgPlain dvNever fetchAlice nowAt100 noShuffle "K1\n")).keys.length +
        (runState (fullRun 1 exCfgPlain dvNever fetchAlice nowAt100 noShuffle "K1\n")).awardedLog.length =
      (initState "bot" "K1\n").keys.length) := by
  constructor
  · decide
  · decide

/-- C1 (amended): queue accounting. Across any run the queue length is
non-increasing; if the loop exits normally, the queue shrank by exactly
one per committed award; if a delivery failure aborts the run, exactly
one additional code was popped without being committed (the code is
popped before delivery is attempted, so the failed delivery loses it). -/
theorem C1_queue_accounting (cfg : Config) (dv : Comment → Bool)
    (fetch : Nat → List Comment) (nowAt : Nat → Int)
    (shuffle : Nat → List Comment → List Comment) (fuel k : Nat) (st : BotState)
    (r : Except BotState BotState)
    (h : runLoop cfg dv fetch nowAt shuffle fuel k st = some r) :
    (exceptState r).keys.length ≤ st.keys.length ∧
    (∀ stF, r = .ok stF →
      st.keys.length + st.awardedLog.length = stF.keys.length + stF.awardedLog.length) ∧
    (∀ stF, r = .error stF →
      st.keys.length + st.awardedLog.length = stF.keys.length + stF.awardedLog.length + 1) := by
  refine ⟨?_, ?_, ?_⟩
  · cases r with
    | ok stF =>
      obtain ⟨popped, hk, _⟩ := runLoop_ok_trace cfg dv fetch nowAt shuffle fuel k st stF h
      have := congrArg List.length hk
      simp only [List.length_append] at this
      simp only [exceptState]
      omega
    | error stF =>
      obtain ⟨popped, kLost, hk, _⟩ :=
        runLoop_err_trace cfg dv fetch nowAt shuffle fuel k st stF h
      have := congrArg List.length hk
      simp only [List.length_append, List.length_cons] at this
      simp only [exceptState]
      omega
  · rintro stF rfl
    obtain ⟨popped, hk, hl⟩ := runLoop_ok_trace cfg dv fetch nowAt shuffle fuel k st stF h
    have h1 := congrArg List.length hk
    have h2 := congrArg List.length hl
    simp only [List.length_append, List.length_map] at h1 h2
    omega
  · rintro stF rfl
    obtain ⟨popped, kLost, hk, hl⟩ :=
      runLoop_err_trace cfg dv fetch nowAt shuffle fuel k st stF h
    have h1 := congrArg List.length hk
    have h2 := congrArg List.length hl
    simp only [List.length_append, List.length_cons, List.length_map] at h1 h2
    omega

/-- C1 witness: accounting on the completed two-code run. -/
theorem C1_witness :
    exStAB.keys.length ≤ (initState "bot" "CODE1\nCODE2\n").keys.length ∧
    (initState "bot" "CODE1\nCODE2\n").keys.length +
        (initState "bot" "CODE1\nCODE2\n").awardedLog.length =
      exStAB.keys.length + exStAB.awardedLog.length := by
  have h := C1_queue_accounting exCfgPlain dvAlways fetchAB nowAt100 noShuffle 1 0
    (initState "bot" "CODE1\nCODE2\n") (.ok exStAB) (by decide)
  exact ⟨h.1, h.2.1 exStAB rfl⟩

/-- C2: at-most-once awards. Over any run started from the seeded state
(the bot's own username pre-inserted in the excluded set, line 132),
however it ends, the award log's recipients are pairwise distinct and
never include the bot's username. -/
theorem C2_at_most_once_per_author (cfg : Config) (dv : Comment → Bool)
    (fetch : Nat → List Comment) (nowAt : Nat → Int)
    (shuffle : Nat → List Comment → List Comment) (fuel : Nat) (content : String)
    (r : Except BotState BotState)
    (h : runLoop cfg dv fetch nowAt shuffle fuel 0 (initState cfg.username content) = some r) :
    ((exceptState r).awardedLog.map Prod.fst).Nodup ∧
    cfg.username ∉ (exceptState r).awardedLog.map Prod.fst := by
  have hg : GoodLog cfg.username (initState cfg.username content) := by
    refine ⟨?_, ?_, ?_, ?_⟩ <;> simp [initState, GoodLog]
  have hfin := runLoop_goodLog cfg.username cfg dv fetch nowAt shuffle fuel 0
    (initState cfg.username content) r h hg
  exact ⟨hfin.1, hfin.2.2.2⟩

/-- C2 witness: the completed two-code run awarded B and A once each and
never the bot. -/
theorem C2_witness :
    ((exceptState (.ok exStAB)).awardedLog.map Prod.fst).Nodup ∧
    exCfgPlain.username ∉ (exceptState (.ok exStAB)).awardedLog.map Prod.fst :=
  C2_at_most_once_per_author exCfgPlain dvAlways fetchAB nowAt100 noShuffle 1
    "CODE1\nCODE2\n" (.ok exStAB) (by decide)

/-- C6 counterexample: key file "K1\n\nK3\n" has a blank middle line; it
is loaded as a key like any other line (`readlines` does not filter
blanks) and is awarded — author "a2" receives the empty-string prize —
refuting the claim that only non-empty lines are treated as valid codes
and that empty lines are never awarded. -/
theorem C6_counterexample :
    "\n" ∈ readlines "K1\n\nK3\n" ∧
    ("a2", "") ∈
      (runState (fullRun 1 exCfgPlain dvAlways fetchTrip nowAt100 noShuffle "K1\n\nK3\n")).awardedLog := by
  constructor
  · decide
  · decide

/-- C6 (amended): the loaded key list is exactly the file's lines in
order (blank lines included), and on a normally-exiting run the awarded
prizes are, in order, the whitespace-stripped forms of the consumed
prefix of those lines — stripping happens at award time
(`keys.pop(0).strip()`, line 173), and blank lines are not filtered but
awarded as empty-string prizes. -/
theorem C6_keys_order_preserving_trimmed (cfg : Config) (dv : Comment → Bool)
    (fetch : Nat → List Comment) (nowAt : Nat → Int)
    (shuffle : Nat → List Comment → List Comment) (fuel k : Nat)
    (u content : String) (st' : BotState)
    (h : runLoop cfg dv fetch nowAt shuffle fuel k (initState u content) = some (.ok st')) :
    ∃ popped, readlines content = popped ++ st'.keys ∧
      st'.awardedLog.map Prod.snd = popped.map pyStrip := by
  obtain ⟨popped, hk, hl⟩ :=
    runLoop_ok_trace cfg dv fetch nowAt shuffle fuel k (initState u content) st' h
  refine ⟨popped, ?_, ?_⟩
  · simpa [initState] using hk
  · simpa [initState] using hl

/-- C6 witness: on the blank-line run all three lines are consumed and
the prizes are their stripped forms, including the empty one. -/
theorem C6_witness :
    ∃ popped, readlines "K1\n\nK3\n" = popped ++ exStTrip.keys ∧
      exStTrip.awardedLog.map Prod.snd = popped.map pyStrip :=
  C6_keys_order_preserving_trimmed exCfgPlain dvAlways fetchTrip nowAt100 noShuffle
    1 0 "bot" "K1\n\nK3\n" exStTrip (by decide)

/-- C7: in chronological mode every poll cycle orders the full comment
list — seen comments are filtered later, inside the scan, not excluded
from ordering: the ordered list is a permutation of the fetched list,
sorted ascending by creation time, and the sort is stable (a pair
already in ascending `created_utc` order keeps its relative order).
Concretely, with PrizeQueue ["CODE1","CODE2"], no keyword, minimum age 0
days and comments from A at t=10 and B at t=5, the awards go to B then
A, both codes are consumed, and the run completes. -/
theorem C7_chronological_full_sort (cfg : Config) (shuffle : List Comment → List Comment)
    (hchrono : cfg.randomMode = false) :
    (∀ cs : List Comment, List.Perm (orderComments cfg shuffle cs) cs) ∧
    (∀ cs : List Comment, List.Sorted chronoRel (orderComments cfg shuffle cs)) ∧
    (∀ (a b : Comment) (cs : List Comment), chronoRel a b →
      List.Sublist [a, b] cs → List.Sublist [a, b] (orderComments cfg shuffle cs)) ∧
    fullRun 1 exCfgPlain dvAlways fetchAB nowAt100 noShuffle "CODE1\nCODE2\n" =
      some (.completed exStAB) := by
  refine ⟨?_, ?_, ?_, by decide⟩
  · intro cs
    simp only [orderComments, hchrono, Bool.false_eq_true, if_false]
    exact List.perm_insertionSort chronoRel cs
  · intro cs
    simp only [orderComments, hchrono, Bool.false_eq_true, if_false]
    exact List.sorted_insertionSort chronoRel cs
  · intro a b cs hab hsub
    simp only [orderComments, hchrono, Bool.false_eq_true, if_false]
    exact List.pair_sublist_insertionSort hab hsub

/-- C7 witness: the ordering facts at concrete lists (including a
stability instance on two comments with equal timestamps) and the
concrete two-code scenario. -/
theorem C7_witness :
    List.Perm (orderComments exCfgPlain (noShuffle 0) [exA, exB]) [exA, exB] ∧
    List.Sublist [exB2, exB3] (orderComments exCfgPlain (noShuffle 0) [exA, exB2, exB3]) ∧
    fullRun 1 exCfgPlain dvAlways fetchAB nowAt100 noShuffle "CODE1\nCODE2\n" =
      some (.completed exStAB) := by
  have h := C7_chronological_full_sort exCfgPlain (noShuffle 0) rfl
  exact ⟨h.1 [exA, exB],
         h.2.2.1 exB2 exB3 [exA, exB2, exB3] (by decide)
           (List.Sublist.cons exA (List.Sublist.refl [exB2, exB3])),
         h.2.2.2⟩

/-- C8: termination. First, if the poll loop returns normally then the
prize queue is empty — an empty PrizeQueue is the loop's only normal
exit. Second, the inner scan stops immediately when the queue is empty,
touching no comment. Third, in chronological mode, if the first fetch
already holds at least as many eligible (author present and fresh,
comment id fresh, keyword-passing, old enough, deliverable)
distinct-author, distinct-id comments as there are prize codes, the run
reaches the empty-queue exit within a single poll cycle — finitely many
cycles. -/
theorem C8_exit_iff_queue_empty (cfg : Config) (dv : Comment → Bool)
    (fetch : Nat → List Comment) (nowAt : Nat → Int)
    (shuffle : Nat → List Comment → List Comment) :
    (∀ (fuel k : Nat) (st st' : BotState),
      runLoop cfg dv fetch nowAt shuffle fuel k st = some (.ok st') → st'.keys = []) ∧
    (∀ (now : Int) (st : BotState) (cs : List Comment), st.keys = [] →
      scanComments cfg now dv st cs = .ok st) ∧
    (∀ st : BotState, cfg.randomMode = false →
      (∀ c ∈ fetch 0, (∃ a, c.author = some a ∧ a ∉ st.authors) ∧
         c.id ∉ st.checked_comment_ids ∧ keywordBlocks cfg c.body = false ∧
         ¬(nowAt 0 - minAccountAge cfg.ageDays < c.created_utc) ∧ dv c = true) →
      ((fetch 0).map Comment.author).Nodup →
      ((fetch 0).map Comment.id).Nodup →
      st.keys.length ≤ (fetch 0).length →
      ∃ st', runLoop cfg dv fetch nowAt shuffle 1 0 st = some (.ok st') ∧ st'.keys = []) := by
  refine ⟨?_, ?_, ?_⟩
  · intro fuel
    induction fuel with
    | zero =>
      intro k st st' h
      rw [runLoop] at h
      split at h
      · cases h
        rename_i hemp
        exact List.isEmpty_iff.mp hemp
      · cases h
    | succ n ih =>
      intro k st st' h
      rw [runLoop] at h
      split at h
      · cases h
        rename_i hemp
        exact List.isEmpty_iff.mp hemp
      · cases hpc : pollCycle cfg (nowAt k) dv (shuffle k) (fetch k) st with
        | error stE =>
          simp only [hpc] at h
          cases h
        | ok st1 =>
          simp only [hpc] at h
          exact ih (k + 1) st1 st' h
  · intro now st cs hemp
    cases cs with
    | nil => simp [scanComments]
    | cons c cs => simp [scanComments, hemp]
  · intro st hchrono hall hna hni hlen
    by_cases hemp : st.keys = []
    · refine ⟨st, ?_, hemp⟩
      rw [runLoop]
      simp [hemp]
    · have hord : orderComments cfg (shuffle 0) (fetch 0) =
          List.insertionSort chronoRel (fetch 0) := by
        simp [orderComments, hchrono]
      have hperm := List.perm_insertionSort chronoRel (fetch 0)
      obtain ⟨st', hscan, hk'⟩ := scanComments_drains cfg (nowAt 0) dv
        (List.insertionSort chronoRel (fetch 0)) { st with subFetched := true }
        (by
          intro c hc
          exact hall c ((List.mem_insertionSort chronoRel).mp hc))
        ((hperm.map Comment.author).nodup_iff.mpr hna)
        ((hperm.map Comment.id).nodup_iff.mpr hni)
        (by
          show st.keys.length ≤ (List.insertionSort chronoRel (fetch 0)).length
          rw [List.length_insertionSort]
          exact hlen)
      refine ⟨st', ?_, hk'⟩
      rw [runLoop]
      have hne : st.keys.isEmpty = false := by
        cases hks : st.keys with
        | nil => exact absurd hks hemp
        | cons x xs => rfl
      simp only [hne, Bool.false_eq_true, if_false]
      have hpoll : pollCycle cfg (nowAt 0) dv (shuffle 0) (fetch 0) st = .ok st' := by
        unfold pollCycle
        rw [hord]
        exact hscan
      simp only [hpoll]
      rw [runLoop]
      simp [hk']

/-- C8 witness: the two-code scenario drains within one cycle, and the
scan on an empty queue is a no-op. -/
theorem C8_witness :
    (∃ st', runLoop exCfgPlain dvAlways fetchAB nowAt100 noShuffle 1 0
        (initState "bot" "CODE1\nCODE2\n") = some (.ok st') ∧ st'.keys = []) ∧
    scanComments exCfgPlain 100 dvAlways exStAB [exA, exB] = .ok exStAB := by
  have h := C8_exit_iff_queue_empty exCfgPlain dvAlways fetchAB nowAt100 noShuffle
  refine ⟨?_, h.2.1 100 exStAB [exA, exB] rfl⟩
  apply h.2.2 (initState "bot" "CODE1\nCODE2\n") rfl
  · intro c hc
    have hc2 : c = exA ∨ c = exB := by
      simpa [fetchAB] using hc
    rcases hc2 with h1 | h1
    · subst h1
      exact ⟨⟨"A", rfl, by decide⟩, by decide, by decide, by decide, rfl⟩
    · subst h1
      exact ⟨⟨"B", rfl, by decide⟩, by decide, by decide, by decide, rfl⟩
  · decide
  · decide
  · decide

end RedditGiveaway
